import Mathlib

/-
Verification of the aistore-object-store client (an S3-compatible object
storage client written in Rust) against its natural-language specification.

The development shallowly embeds the relevant source code:

  - src/error.rs     : the AiStoreError taxonomy;
  - src/request.rs   : the retry and redirect loop of HttpRequestBuilder.send;
  - src/lib.rs       : the lazy list paginator and the delimiter grouping;
  - src/multipart.rs : multipart part numbering, recording and completion;
  - src/client.rs    : header parsing (Content-Range, Content-Length),
                       metadata extraction and the get-object status branches.

Network input is modelled by an oracle: a list of outcomes consumed one by
one, one outcome per issued HTTP attempt (respectively one list page per
page fetch). Wall-clock sleeps between retries only delay execution and
never change a returned value, so the timing fields of the request policy
are elided. Machine integers of the source (u16 status codes, u32 part
numbers, u64 sizes) are modelled as Nat; the source never exercises their
overflow behaviour in the claims below, and parse bounds are kept explicit
where the source checks them (u64 parsing).
-/

deriving instance DecidableEq for Except

namespace AIS

/-- Transport-level failure: the observations reqwest exposes on an error,
as used by is_retryable_error in src/request.rs. -/
structure ReqwestError where
  isTimeout : Bool
  isConnect : Bool
  isRequest : Bool
deriving Repr, DecidableEq

/-- Value of one HTTP header. The source only observes a header value
through HeaderValue::to_str, which fails for values that are not visible
ASCII; the model keeps exactly that observation: none models a value
rejected by to_str. -/
structure HeaderValue where
  toStr? : Option String
deriving Repr, DecidableEq

/-- An HTTP response as the client observes it: status code, headers and
body text. Header names are stored lowercased, matching the normalisation
reqwest applies before lookup. -/
structure HttpResponse where
  status : Nat
  headers : List (String × HeaderValue)
  body : String
deriving Repr, DecidableEq

/-- Lookup of a header by (lowercase) name: first matching entry. -/
def HttpResponse.getHeader (r : HttpResponse) (name : String) : Option HeaderValue :=
  (r.headers.find? (fun p => p.1 = name)).map Prod.snd

/-- Header lookup followed by to_str, the only read pattern the source uses. -/
def HttpResponse.headerStr (r : HttpResponse) (name : String) : Option String :=
  (r.getHeader name).bind HeaderValue.toStr?

/-- The error taxonomy of src/error.rs, constructor for constructor. -/
inductive AiStoreError where
  | notFound (message : String)
  | forbidden (message : String)
  | unauthorized (message : String)
  | alreadyExists (message : String)
  | http (status : Nat) (message : String)
  | request (source : ReqwestError)
  | invalidResponse (message : String)
  | notModified (path : String)
  | preconditionFailed (path : String)
  | configuration (message : String)
deriving Repr, DecidableEq

/-- RequestPolicy of src/request.rs. The three timing fields
(initial_retry_delay, backoff_factor, max_retry_delay) only control how
long the loop sleeps between attempts and never influence any returned
value, so they are elided from the model. -/
structure RequestPolicy where
  maxRetries : Nat
  maxRedirects : Nat
deriving Repr, DecidableEq

/-- Default::default() for RequestPolicy: 3 retries, 10 redirects. -/
def RequestPolicy.default : RequestPolicy := ⟨3, 10⟩

/-- StatusCode::is_redirection of the http crate: 300 to 399. -/
def isRedirection (s : Nat) : Bool := 300 ≤ s && s ≤ 399

/-- StatusCode::is_success of the http crate: 200 to 299. -/
def isSuccess (s : Nat) : Bool := 200 ≤ s && s ≤ 299

/-- HttpRequestBuilder::is_retryable_status (408, 429, 500, 502, 503, 504). -/
def isRetryableStatus (s : Nat) : Bool :=
  s = 408 || s = 429 || s = 500 || s = 502 || s = 503 || s = 504

/-- HttpRequestBuilder::is_retryable_error: a Request error whose source is
a timeout, a connect failure or a generic request failure. -/
def isRetryableError : AiStoreError → Bool
  | .request e => e.isTimeout || e.isConnect || e.isRequest
  | _ => false

/-- Message built for redirect exhaustion in send:
format of Too many redirects (max: N). -/
def sTooManyRedirects (maxRedirects : Nat) : String :=
  "Too many redirects (max: " ++ toString maxRedirects ++ ")"

/-- Message built for a redirection response without a usable Location
header in send. -/
def sRedirectNoLocation (status : Nat) : String :=
  toString status ++ " redirect without Location header"

/-- Outcome of one send_once call: a response, or the transport error that
send_once wraps into AiStoreError::Request. -/
abbrev SendOutcome := Except ReqwestError HttpResponse

/-- The loop body of HttpRequestBuilder::send. The oracle list holds one
outcome per attempt, consumed in order; the result is paired with the
number of attempts consumed, and is none when the oracle runs out before
the loop returns. Redirect handling replaces the target URL in the source;
the oracle already fixes the response of every attempt, so the URL needs no
tracking here. -/
def sendLoop (pol : RequestPolicy) :
    Nat → Nat → List SendOutcome → Option (Except AiStoreError HttpResponse × Nat)
  | _, _, [] => none
  | redirects, retries, (Except.ok resp) :: rest =>
      if isRedirection resp.status then
        if pol.maxRedirects ≤ redirects then
          some (.error (.invalidResponse (sTooManyRedirects pol.maxRedirects)), 1)
        else
          match resp.headerStr "location" with
          | some _ => (sendLoop pol (redirects + 1) retries rest).map (fun p => (p.1, p.2 + 1))
          | none => some (.error (.invalidResponse (sRedirectNoLocation resp.status)), 1)
      else if isRetryableStatus resp.status && decide (retries < pol.maxRetries) then
        (sendLoop pol redirects (retries + 1) rest).map (fun p => (p.1, p.2 + 1))
      else
        some (.ok resp, 1)
  | redirects, retries, (Except.error e) :: rest =>
      if isRetryableError (.request e) && decide (retries < pol.maxRetries) then
        (sendLoop pol redirects (retries + 1) rest).map (fun p => (p.1, p.2 + 1))
      else
        some (.error (.request e), 1)

/-- HttpRequestBuilder::send: the loop started with both counters at zero
and the initial retry delay. -/
def send (pol : RequestPolicy) (outcomes : List SendOutcome) :
    Option (Except AiStoreError HttpResponse × Nat) :=
  sendLoop pol 0 0 outcomes

/-- A response of a redirect chain: a redirection status carrying a usable
Location header. -/
def isFollowableRedirect (r : HttpResponse) : Prop :=
  isRedirection r.status = true ∧ r.headerStr "location" ≠ none

instance (r : HttpResponse) : Decidable (isFollowableRedirect r) := by
  unfold isFollowableRedirect; infer_instance

/-- Following a chain of redirect responses with Location headers consumes
them one per attempt, bumping only the redirect counter, while the budget
lasts. -/
theorem sendLoop_follow_chain (pol : RequestPolicy) (retries : Nat)
    (chain : List HttpResponse) :
    ∀ (redirects : Nat) (rest : List SendOutcome),
      (∀ x ∈ chain, isFollowableRedirect x) →
      redirects + chain.length ≤ pol.maxRedirects →
      sendLoop pol redirects retries (chain.map Except.ok ++ rest) =
        (sendLoop pol (redirects + chain.length) retries rest).map
          (fun p => (p.1, p.2 + chain.length)) := by
  induction chain with
  | nil =>
      intro redirects rest _ _
      simp
  | cons c cs ih =>
      intro redirects rest hchain hlen
      have hc : isFollowableRedirect c := hchain c (by simp)
      obtain ⟨hred, hloc⟩ := hc
      obtain ⟨l, hl⟩ : ∃ l, c.headerStr "location" = some l := by
        cases h : c.headerStr "location" with
        | none => exact absurd h hloc
        | some l => exact ⟨l, rfl⟩
      have hlt : ¬ pol.maxRedirects ≤ redirects := by
        simp only [List.length_cons] at hlen; omega
      have ihs := ih (redirects + 1) rest
        (fun x hx => hchain x (by simp [hx]))
        (by simp only [List.length_cons] at hlen; omega)
      have harith : redirects + 1 + cs.length = redirects + (cs.length + 1) := by omega
      rw [harith] at ihs
      simp only [List.map_cons, List.cons_append, sendLoop, hred, hl, if_neg hlt,
        ite_true, List.append_eq, ihs, List.length_cons]
      cases sendLoop pol (redirects + (cs.length + 1)) retries rest with
      | none => simp
      | some p => simp; omega

/-- Exhausting the redirect budget: once the chain is one longer than the
remaining budget, the loop stops at the attempt that finds the counter full
and returns the too-many-redirects InvalidResponse error. -/
theorem sendLoop_redirect_exhaust (pol : RequestPolicy) (retries : Nat)
    (chain : List HttpResponse) :
    ∀ (redirects : Nat) (rest : List SendOutcome),
      chain ≠ [] →
      (∀ x ∈ chain, isFollowableRedirect x) →
      redirects + chain.length = pol.maxRedirects + 1 →
      sendLoop pol redirects retries (chain.map Except.ok ++ rest) =
        some (.error (.invalidResponse (sTooManyRedirects pol.maxRedirects)),
          chain.length) := by
  induction chain with
  | nil =>
      intro redirects rest hne _ _
      exact absurd rfl hne
  | cons c cs ih =>
      intro redirects rest _ hchain hlen
      obtain ⟨hred, hloc⟩ := hchain c (by simp)
      simp only [List.length_cons] at hlen
      by_cases hfull : pol.maxRedirects ≤ redirects
      · -- the counter is already full: the loop errors out at this attempt,
        -- so the chain must have had exactly one element left.
        have hcs : cs.length = 0 := by omega
        have hcs0 : cs = [] := List.length_eq_zero.mp hcs
        subst hcs0
        simp [sendLoop, hred, hfull]
      · obtain ⟨l, hl⟩ : ∃ l, c.headerStr "location" = some l := by
          cases h : c.headerStr "location" with
          | none => exact absurd h hloc
          | some l => exact ⟨l, rfl⟩
        have hcsne : cs ≠ [] := by
          intro h0
          subst h0
          simp at hlen
          omega
        have ihs := ih (redirects + 1) rest hcsne
          (fun x hx => hchain x (by simp [hx])) (by omega)
        simp [sendLoop, hred, hfull, hl, ihs]

/-- C1 (amended). Redirect exhaustion is terminal and never retried, but the
error the source returns is the InvalidResponse variant carrying a
too-many-redirects message: the taxonomy of src/error.rs has no dedicated
TooManyRedirects variant. A chain of maxRedirects + 1 redirect responses
yields that error after exactly maxRedirects + 1 attempts, independently of
the retry budget and of any outcomes queued behind the chain; a chain of
exactly maxRedirects redirects followed by a non-redirect, non-retryable
response returns that response, again after maxRedirects + 1 attempts. -/
theorem c1_redirect_exhaustion (pol : RequestPolicy) (chain : List HttpResponse)
    (final : HttpResponse) (rest : List SendOutcome)
    (hchain : ∀ x ∈ chain, isFollowableRedirect x) :
    (chain.length = pol.maxRedirects + 1 →
      send pol (chain.map Except.ok ++ rest) =
        some (.error (.invalidResponse (sTooManyRedirects pol.maxRedirects)),
          pol.maxRedirects + 1)) ∧
    (chain.length = pol.maxRedirects →
      isRedirection final.status = false →
      isRetryableStatus final.status = false →
      send pol (chain.map Except.ok ++ [Except.ok final]) =
        some (.ok final, pol.maxRedirects + 1)) := by
  constructor
  · intro hlen
    have hne : chain ≠ [] := by
      intro h0; subst h0; simp at hlen
    have h := sendLoop_redirect_exhaust pol 0 chain 0 rest hne hchain (by omega)
    rw [send, h, hlen]
  · intro hlen hnred hnretry
    have h := sendLoop_follow_chain pol 0 chain 0 [Except.ok final] hchain (by omega)
    rw [send, h, hlen]
    simp [sendLoop, hnred, hnretry]
    omega

/-- Concrete redirect response used by witnesses: a 302 with a Location. -/
def respRedirect : HttpResponse :=
  { status := 302, headers := [("location", ⟨some "http://next"⟩)], body := "" }

/-- Concrete plain success response used by witnesses. -/
def resp200 : HttpResponse := { status := 200, headers := [], body := "ok" }

/-- C1 witness: with a budget of 2 redirects, a chain of 3 redirects returns
the too-many-redirects InvalidResponse error in 3 attempts, and a chain of
2 redirects followed by a 200 returns the 200 in 3 attempts. -/
theorem c1_redirect_exhaustion_witness :
    send ⟨3, 2⟩ ([respRedirect, respRedirect, respRedirect].map Except.ok ++ []) =
      some (.error (.invalidResponse "Too many redirects (max: 2)"), 3) ∧
    send ⟨3, 2⟩ ([respRedirect, respRedirect].map Except.ok ++ [Except.ok resp200]) =
      some (.ok resp200, 3) := by
  constructor
  · have h := (c1_redirect_exhaustion ⟨3, 2⟩ [respRedirect, respRedirect, respRedirect]
      resp200 [] (by decide)).1 (by decide)
    exact h
  · have h := (c1_redirect_exhaustion ⟨3, 2⟩ [respRedirect, respRedirect]
      resp200 [] (by decide)).2 (by decide) (by decide) (by decide)
    exact h

/-- C1 counterexample to the claim as stated: on redirect exhaustion the
returned error is the InvalidResponse constructor of the error taxonomy,
not a dedicated TooManyRedirects error (src/error.rs declares no such
variant). With a budget of 0 redirects, one redirect response exhausts the
chain. -/
theorem c1_no_dedicated_variant :
    send ⟨3, 0⟩ [Except.ok respRedirect] =
      some (.error (.invalidResponse "Too many redirects (max: 0)"), 1) := by
  decide

/-- An attempt outcome the loop retries: a response with a retryable status,
or a transport error classified as transient. -/
def retryableOutcome : SendOutcome → Bool
  | .ok r => isRetryableStatus r.status
  | .error e => isRetryableError (.request e)

/-- What send returns for one outcome once it stops retrying: the response
as-is, or the transport error wrapped by send_once. -/
def outcomeResult : SendOutcome → Except AiStoreError HttpResponse
  | .ok r => .ok r
  | .error e => .error (.request e)

/-- Retryable statuses are not redirections (they all lie outside 300-399). -/
theorem retryableStatus_not_redirection {s : Nat} (h : isRetryableStatus s = true) :
    isRedirection s = false := by
  simp only [isRetryableStatus, Bool.or_eq_true, decide_eq_true_eq] at h
  rcases h with ((((rfl | rfl) | rfl) | rfl) | rfl) | rfl <;> rfl

/-- On an all-retryable oracle, the loop spends the whole remaining retry
budget and returns the outcome it reaches when the budget is gone. -/
theorem sendLoop_all_retryable (pol : RequestPolicy) :
    ∀ (k : Nat) (os : List SendOutcome) (redirects retries : Nat) (o : SendOutcome),
      retries + k = pol.maxRetries →
      (∀ x ∈ os, retryableOutcome x = true) →
      os[k]? = some o →
      sendLoop pol redirects retries os = some (outcomeResult o, k + 1) := by
  intro k
  induction k with
  | zero =>
      intro os redirects retries o hbudget hall hget
      cases os with
      | nil => simp at hget
      | cons x rest =>
          have hxo : x = o := by simpa using hget
          subst hxo
          have hx := hall x (by simp)
          have hnlt : ¬ retries < pol.maxRetries := by omega
          cases x with
          | ok r =>
              have hretry : isRetryableStatus r.status = true := by
                simpa [retryableOutcome] using hx
              have hnred := retryableStatus_not_redirection hretry
              simp [sendLoop, hnred, hnlt, outcomeResult]
          | error e =>
              simp [sendLoop, hnlt, outcomeResult]
  | succ k ih =>
      intro os redirects retries o hbudget hall hget
      cases os with
      | nil => simp at hget
      | cons x rest =>
          simp only [List.getElem?_cons_succ] at hget
          have hx := hall x (by simp)
          have hlt : retries < pol.maxRetries := by omega
          have ihs := ih rest redirects (retries + 1) o (by omega)
            (fun y hy => hall y (by simp [hy])) hget
          cases x with
          | ok r =>
              have hretry : isRetryableStatus r.status = true := by
                simpa [retryableOutcome] using hx
              have hnred := retryableStatus_not_redirection hretry
              simp [sendLoop, hnred, hretry, hlt, ihs]
          | error e =>
              have hretry : isRetryableError (.request e) = true := by
                simpa [retryableOutcome] using hx
              simp [sendLoop, hretry, hlt, ihs]

/-- C3. On an oracle whose attempts are all retryable (statuses 408, 429,
500, 502, 503, 504, or transient transport errors), send makes exactly
maxRetries + 1 attempts and returns the outcome of the last attempt made:
the response as-is, or the wrapped transport error. -/
theorem c3_retry_budget (pol : RequestPolicy) (os : List SendOutcome) (o : SendOutcome)
    (hall : ∀ x ∈ os, retryableOutcome x = true)
    (hlast : os[pol.maxRetries]? = some o) :
    send pol os = some (outcomeResult o, pol.maxRetries + 1) :=
  sendLoop_all_retryable pol pol.maxRetries os 0 0 o (by omega) hall hlast

/-- Concrete retryable outcomes for the C3 witness. -/
def resp500 : HttpResponse := { status := 500, headers := [], body := "boom" }

/-- Concrete retryable 503 response for the C3 witness. -/
def resp503 : HttpResponse := { status := 503, headers := [], body := "busy" }

/-- Concrete transient transport error for the C3 witness. -/
def errTimeout : ReqwestError := { isTimeout := true, isConnect := false, isRequest := false }

/-- C3 witness: with a budget of 2 retries, a 500, a timeout and a final 503
consume exactly 3 attempts and the 503 response itself is returned. -/
theorem c3_retry_budget_witness :
    send ⟨2, 10⟩ [Except.ok resp500, Except.error errTimeout, Except.ok resp503] =
      some (.ok resp503, 3) :=
  c3_retry_budget ⟨2, 10⟩ [Except.ok resp500, Except.error errTimeout, Except.ok resp503]
    (Except.ok resp503) (by decide) (by decide)

/-- ObjectMeta as the client builds it (object_store::ObjectMeta): location
modelled by its string form, timestamps by Nat. -/
structure ObjectMeta where
  location : String
  lastModified : Nat
  size : Nat
  eTag : Option String
  version : Option String
deriving Repr, DecidableEq

/-- One Contents entry of a ListObjectsV2 response (src/xml.rs,
ListContents). -/
structure ListContents where
  key : String
  size : Nat
  lastModified : Option Nat
  eTag : Option String
deriving Repr, DecidableEq

/-- A deserialized ListBucketResult (src/xml.rs). -/
structure ListBucketResult where
  contents : List ListContents
  commonPrefixes : List String
  nextContinuationToken : Option String
  isTruncated : Option Bool
deriving Repr, DecidableEq

/-- Conversion of one entry inside AiStore::list: Path::parse on the key
(entry skipped when it fails), last_modified defaulted to the current time.
Path::parse belongs to the external object_store crate, so it stays an
abstract parameter, as does the clock. -/
def convertEntry (parse : String → Option String) (now : Nat)
    (entry : ListContents) : Option ObjectMeta :=
  (parse entry.key).map (fun location =>
    { location := location, lastModified := entry.lastModified.getD now,
      size := entry.size, eTag := entry.eTag, version := none })

/-- ListState of src/lib.rs (the client handle itself carries no state). The
buffer is a Rust Vec popped from its back. -/
structure ListState where
  continuationToken : Option String
  done : Bool
  buffer : List ObjectMeta
deriving Repr, DecidableEq

/-- Vec::pop: removes and returns the last element. -/
def vecPop {α : Type} (xs : List α) : Option (α × List α) :=
  match xs.getLast? with
  | some x => some (x, xs.dropLast)
  | none => none

/-- The state AiStore::list starts its unfold with. -/
def initialListState : ListState :=
  { continuationToken := none, done := false, buffer := [] }

/-- Oracle entry for one list_objects page fetch. -/
abbrev PageResult := Except AiStoreError ListBucketResult

/-- One step of the unfold closure inside AiStore::list. The page oracle is
consumed one entry per page fetch; the step returns the produced element,
the successor state and the remaining oracle, or none when the stream ends
(also none when the oracle runs out, a model artifact that the theorems
avoid by supplying enough pages). -/
def listStep (parse : String → Option String) (now : Nat)
    (st : ListState) (pages : List PageResult) :
    Option (Except AiStoreError ObjectMeta × ListState × List PageResult) :=
  if st.done && st.buffer.isEmpty then
    none
  else
    match vecPop st.buffer with
    | some (item, rest) => some (.ok item, { st with buffer := rest }, pages)
    | none =>
      match pages with
      | [] => none
      | page :: pages1 =>
        match page with
        | .ok response =>
            let isTruncated := response.isTruncated.getD false
            let st1 :=
              if !isTruncated || response.nextContinuationToken.isNone then
                { st with done := true }
              else
                { st with continuationToken := response.nextContinuationToken }
            let buf := (response.contents.filterMap (convertEntry parse now)).reverse
            match vecPop buf with
            | some (item, rest) => some (.ok item, { st1 with buffer := rest }, pages1)
            | none => none
        | .error e => some (.error e, { st with done := true }, pages1)

/-- Drives listStep until the stream ends or the fuel runs out, returning
the produced elements together with the final state and untouched oracle
suffix. -/
def listRunFull (parse : String → Option String) (now : Nat) :
    Nat → ListState → List PageResult →
      (List (Except AiStoreError ObjectMeta) × ListState × List PageResult)
  | 0, st, pages => ([], st, pages)
  | fuel + 1, st, pages =>
    match listStep parse now st pages with
    | none => ([], st, pages)
    | some (item, st1, pages1) =>
        let rec1 := listRunFull parse now fuel st1 pages1
        (item :: rec1.1, rec1.2)

/-- str::strip_prefix on character lists: the remainder of the second list
after the first, when the first is a leading segment of it. -/
def dropPfx? : List Char → List Char → Option (List Char)
  | [], s => some s
  | _ :: _, [] => none
  | p :: ps, c :: cs => if p = c then dropPfx? ps cs else none

/-- str::trim_end_matches for one character: strips every trailing copy. -/
def trimEndMatches (s : String) (c : Char) : String :=
  ⟨(s.data.reverse.dropWhile (· = c)).reverse⟩

/-- str::trim_matches for one character: strips every leading and trailing
copy. -/
def trimMatches (s : String) (c : Char) : String :=
  ⟨((s.data.dropWhile (· = c)).reverse.dropWhile (· = c)).reverse⟩

/-- HashSet::insert observed through the final iteration: the set is kept as
its list of distinct members (iteration order of the source HashSet is
unspecified; no claim depends on it). -/
def insertDedup (s : List String) (x : String) : List String :=
  if x ∈ s then s else s ++ [x]

/-- The per-entry body of the loop in AiStore::list_with_delimiter: strip
the queried prefix and any leading separator, then either record a common
prefix bucket (up to and including the first separator) or push a direct
child as an object entry, skipping keys that fail Path::parse. -/
def processEntry (pfxStr : String) (parse : String → Option String) (now : Nat)
    (acc : List ObjectMeta × List String) (entry : ListContents) :
    List ObjectMeta × List String :=
  let rel? : Option (List Char) :=
    if pfxStr = "" then some entry.key.data
    else match dropPfx? pfxStr.data entry.key.data with
      | some stripped => some (stripped.dropWhile (· = '/'))
      | none => none
  match rel? with
  | none => acc
  | some relativePath =>
    match relativePath.findIdx? (· = '/') with
    | some slashPos =>
        let dirPfx : String :=
          if pfxStr = "" then ⟨relativePath.take slashPos ++ ['/']⟩
          else ⟨(trimEndMatches pfxStr '/').data ++ ['/'] ++ relativePath.take slashPos ++ ['/']⟩
        (acc.1, insertDedup acc.2 dirPfx)
    | none =>
        match parse entry.key with
        | some location =>
            (acc.1 ++ [{ location := location, lastModified := entry.lastModified.getD now,
                         size := entry.size, eTag := entry.eTag, version := none }], acc.2)
        | none => acc

/-- The page loop of AiStore::list_with_delimiter over the page oracle: each
iteration fetches one page, folds its entries into the accumulators, then
stops when the page is terminal (not truncated, or no continuation token)
or when the fetch failed. The remaining oracle is returned so theorems can
speak about pages never fetched; none only when the oracle runs out. -/
def lwdLoop (pfxStr : String) (parse : String → Option String) (now : Nat) :
    List PageResult → List ObjectMeta → List String →
      Option (Except AiStoreError (List ObjectMeta × List String) × List PageResult)
  | [], _, _ => none
  | page :: rest, objects, pfxs =>
    match page with
    | .error e => some (.error e, rest)
    | .ok response =>
        let acc := response.contents.foldl (processEntry pfxStr parse now) (objects, pfxs)
        let isTruncated := response.isTruncated.getD false
        if !isTruncated || response.nextContinuationToken.isNone then
          some (.ok acc, rest)
        else
          lwdLoop pfxStr parse now rest acc.1 acc.2

/-- AiStore::list_with_delimiter: runs the loop from empty accumulators and
finally re-parses the collected common prefixes through Path::parse. -/
def listWithDelimiter (pfxStr : String) (parse : String → Option String) (now : Nat)
    (pages : List PageResult) :
    Option (Except AiStoreError (List ObjectMeta × List String)) :=
  (lwdLoop pfxStr parse now pages [] []).map
    (fun p => p.1.map (fun res => (res.1, res.2.filterMap parse)))

/-- Vec::pop on an empty vector. -/
theorem vecPop_nil {α : Type} : vecPop ([] : List α) = none := rfl

/-- Vec::pop returns nothing exactly on an empty vector. -/
theorem vecPop_eq_none_iff {α : Type} (xs : List α) : vecPop xs = none ↔ xs = [] := by
  unfold vecPop
  cases h : xs.getLast? with
  | none => simpa using List.getLast?_eq_none_iff.mp h
  | some x =>
      simp only []
      constructor
      · intro hc; cases hc
      · intro hx; subst hx; simp at h

/-- Vec::pop succeeds on a nonempty vector. -/
theorem vecPop_of_ne_nil {α : Type} {xs : List α} (h : xs ≠ []) :
    ∃ y ys, vecPop xs = some (y, ys) := by
  cases hp : vecPop xs with
  | none => exact absurd ((vecPop_eq_none_iff xs).mp hp) h
  | some p => exact ⟨p.1, p.2, by simp⟩

/-- C2 (amended). Exact characterization of when one pull on the list stream
ends the sequence: either a terminal page was consumed (done is set) and
the buffer is empty, or the buffer is empty, done is not set and the next
fetched page converts to no usable entries at all, in which case the
sequence ends even though that page may be non-terminal. The pages = []
arm is the oracle running out, an artifact of the page oracle model. -/
theorem c2_stream_end_iff (parse : String → Option String) (now : Nat)
    (st : ListState) (pages : List PageResult) :
    listStep parse now st pages = none ↔
      (st.done = true ∧ st.buffer = []) ∨
      (st.done = false ∧ st.buffer = [] ∧ pages = []) ∨
      (st.done = false ∧ st.buffer = [] ∧ ∃ r rest, pages = Except.ok r :: rest ∧
        r.contents.filterMap (convertEntry parse now) = []) := by
  by_cases hd : st.done
  · by_cases hb : st.buffer = []
    · simp [listStep, hd, hb]
    · obtain ⟨y, ys, hy⟩ := vecPop_of_ne_nil hb
      simp [listStep, hd, hb, hy, List.isEmpty_iff]
  · by_cases hb : st.buffer = []
    · cases pages with
      | nil => simp [listStep, hd, hb, vecPop_nil]
      | cons page rest =>
          cases page with
          | error e => simp [listStep, hd, hb, vecPop_nil]
          | ok r =>
              cases hbuf : vecPop ((r.contents.filterMap (convertEntry parse now)).reverse) with
              | none =>
                  have hnil := List.reverse_eq_nil_iff.mp ((vecPop_eq_none_iff _).mp hbuf)
                  simp [listStep, hd, hb, vecPop_nil, hbuf, hnil]
                  exact List.filterMap_eq_nil_iff.mp hnil
              | some p =>
                  have hne : r.contents.filterMap (convertEntry parse now) ≠ [] := by
                    intro h0
                    rw [(vecPop_eq_none_iff _).mpr (by simp [h0])] at hbuf
                    cases hbuf
                  have hne2 : ¬ ∀ a ∈ r.contents, convertEntry parse now a = none := by
                    rw [← List.filterMap_eq_nil_iff]
                    exact hne
                  simp [listStep, hd, hb, vecPop_nil, hbuf, hne2]
    · obtain ⟨y, ys, hy⟩ := vecPop_of_ne_nil hb
      simp [listStep, hd, hb, hy]

/-- A page that is truncated and carries a continuation token but converts
to no entries at all. -/
def pageEmptyNonTerminal : ListBucketResult :=
  { contents := [], commonPrefixes := [],
    nextContinuationToken := some "tok", isTruncated := some true }

/-- A terminal page holding a single entry with key a. -/
def pageWithEntry : ListBucketResult :=
  { contents := [{ key := "a", size := 1, lastModified := some 7, eTag := none }],
    commonPrefixes := [], nextContinuationToken := none, isTruncated := some false }

/-- C2 counterexample to the claim as stated: the first fetched page is non
terminal (truncated, token present) but converts to an empty buffer, and
the unfold closure then returns none, ending the stream without fetching
the next page; the entry of the second page, which one more fetch would
have produced, is lost. -/
theorem c2_early_end_on_empty_page :
    listStep (fun s => some s) 0 initialListState
        [Except.ok pageEmptyNonTerminal, Except.ok pageWithEntry] = none ∧
    (listRunFull (fun s => some s) 0 5 initialListState
        [Except.ok pageEmptyNonTerminal, Except.ok pageWithEntry]).1 = [] ∧
    pageEmptyNonTerminal.isTruncated = some true ∧
    pageEmptyNonTerminal.nextContinuationToken = some "tok" ∧
    (listRunFull (fun s => some s) 0 5 initialListState [Except.ok pageWithEntry]).1 =
      [Except.ok (⟨"a", 7, 1, none, none⟩ : ObjectMeta)] := by
  refine ⟨rfl, rfl, rfl, rfl, rfl⟩

/-- A state with done set never touches the page oracle: the step either
ends the stream or drains one buffered element, keeping done set and the
oracle untouched. -/
theorem listStep_done (parse : String → Option String) (now : Nat)
    (st : ListState) (pages : List PageResult) (h : st.done = true) :
    listStep parse now st pages = none ∨
    ∃ item st1, listStep parse now st pages = some (item, st1, pages) ∧
      st1.done = true := by
  by_cases hb : st.buffer = []
  · left
    simp [listStep, h, hb]
  · right
    obtain ⟨y, ys, hy⟩ := vecPop_of_ne_nil hb
    refine ⟨.ok y, { st with buffer := ys }, ?_, h⟩
    simp [listStep, h, hb, hy, List.isEmpty_iff]

/-- Once done is set, a full run of the stream never consumes a page and
keeps done set. -/
theorem listRunFull_done (parse : String → Option String) (now : Nat) :
    ∀ (fuel : Nat) (st : ListState) (pages : List PageResult), st.done = true →
      (listRunFull parse now fuel st pages).2.2 = pages ∧
      (listRunFull parse now fuel st pages).2.1.done = true := by
  intro fuel
  induction fuel with
  | zero => intro st pages h; exact ⟨rfl, h⟩
  | succ fuel ih =>
      intro st pages h
      rcases listStep_done parse now st pages h with hnone | ⟨item, st1, hsome, hdone⟩
      · simp [listRunFull, hnone, h]
      · have ihs := ih st1 pages hdone
        simp [listRunFull, hsome, ihs.1, ihs.2]

/-- C4. A page whose response reports is_truncated true but carries no
continuation token is treated as terminal by both views. First conjunct:
in the lazy list stream, consuming such a page sets done and leaves the
oracle tail for that page only. Second conjunct: from a done state the
stream never consumes another page, whatever the fuel. Third conjunct: the
delimiter grouping loop stops right after folding such a page, returning
the remaining oracle untouched. -/
theorem c4_missing_token_terminal :
    (∀ (parse : String → Option String) (now : Nat) (st : ListState)
        (r : ListBucketResult) (rest : List PageResult)
        (item : Except AiStoreError ObjectMeta) (st1 : ListState)
        (pages1 : List PageResult),
        st.done = false → st.buffer = [] →
        r.isTruncated = some true → r.nextContinuationToken = none →
        listStep parse now st (Except.ok r :: rest) = some (item, st1, pages1) →
        st1.done = true ∧ pages1 = rest) ∧
    (∀ (parse : String → Option String) (now fuel : Nat) (st : ListState)
        (pages : List PageResult), st.done = true →
        (listRunFull parse now fuel st pages).2.2 = pages) ∧
    (∀ (pfxStr : String) (parse : String → Option String) (now : Nat)
        (r : ListBucketResult) (rest : List PageResult)
        (objects : List ObjectMeta) (pfxs : List String),
        r.isTruncated = some true → r.nextContinuationToken = none →
        lwdLoop pfxStr parse now (Except.ok r :: rest) objects pfxs =
          some (.ok (r.contents.foldl (processEntry pfxStr parse now) (objects, pfxs)),
            rest)) := by
  refine ⟨?_, ?_, ?_⟩
  · intro parse now st r rest item st1 pages1 hd hb htr htok hstep
    cases hbuf : vecPop ((r.contents.filterMap (convertEntry parse now)).reverse) with
    | none => simp [listStep, hd, hb, vecPop_nil, htr, htok, hbuf] at hstep
    | some p =>
        simp [listStep, hd, hb, vecPop_nil, htr, htok, hbuf] at hstep
        obtain ⟨h1, h2, h3⟩ := hstep
        constructor
        · rw [← h2]
        · exact h3.symm
  · intro parse now fuel st pages h
    exact (listRunFull_done parse now fuel st pages h).1
  · intro pfxStr parse now r rest objects pfxs htr htok
    simp [lwdLoop, htr, htok]

/-- A malformed page: truncated, no continuation token, one entry. -/
def pageTruncNoTok : ListBucketResult :=
  { contents := [{ key := "a", size := 1, lastModified := some 7, eTag := none }],
    commonPrefixes := [], nextContinuationToken := none, isTruncated := some true }

/-- C4 witness: consuming the malformed page sets done while yielding its
entry and leaves the remaining oracle empty; a done state never consumes
the oracle; the delimiter loop consumes exactly the one malformed page. -/
theorem c4_missing_token_terminal_witness :
    (listStep (fun s => some s) 0 initialListState [Except.ok pageTruncNoTok] =
        some (.ok (⟨"a", 7, 1, none, none⟩ : ObjectMeta), (⟨none, true, []⟩ : ListState), []) ∧
      (⟨none, true, []⟩ : ListState).done = true) ∧
    (listRunFull (fun s => some s) 0 3 (⟨none, true, []⟩ : ListState)
        [Except.ok pageWithEntry]).2.2 = [Except.ok pageWithEntry] ∧
    lwdLoop "" (fun s => some s) 0 [Except.ok pageTruncNoTok] [] [] =
      some (.ok ([(⟨"a", 7, 1, none, none⟩ : ObjectMeta)], []), []) := by
  refine ⟨⟨rfl, ?_⟩, ?_, ?_⟩
  · exact (c4_missing_token_terminal.1 (fun s => some s) 0 initialListState pageTruncNoTok []
      (.ok ⟨"a", 7, 1, none, none⟩) ⟨none, true, []⟩ [] rfl rfl rfl rfl rfl).1
  · exact c4_missing_token_terminal.2.1 (fun s => some s) 0 3 ⟨none, true, []⟩
      [Except.ok pageWithEntry] rfl
  · have h := c4_missing_token_terminal.2.2 "" (fun s => some s) 0 pageTruncNoTok [] [] [] rfl rfl
    exact h

/-- MultipartState of src/multipart.rs: the mutex-guarded record of
completed parts and the next part number to hand out. -/
structure MultipartState where
  parts : List (Nat × String)
  nextPartNumber : Nat
deriving Repr, DecidableEq

/-- AiStoreMultipartUpload::new: empty parts, counter at 1. -/
def MultipartState.init : MultipartState := ⟨[], 1⟩

/-- One serialized critical section of a put_part task. Each put_part
invocation runs assign once (take the counter, bump it) and, after its
upload returns an ETag, record once (push the pair). The mutex serializes
the critical sections, so a concurrent execution is exactly some
interleaving, that is, some list of these events. -/
inductive MpEvent where
  | assign (tid : Nat)
  | record (tid : Nat) (etag : String)

/-- Whether an event is a part-number assignment. -/
def MpEvent.isAssign : MpEvent → Bool
  | .assign _ => true
  | .record _ _ => false

/-- A multipart session run: the shared state plus the assignment log
(task id, assigned number) in assignment order, which is the observation
the uniqueness claim speaks about. -/
structure MpSession where
  state : MultipartState
  assigned : List (Nat × Nat)

/-- Effect of one critical section. assign mirrors the first lock scope of
put_part (read counter, increment); record mirrors the second (push the
pair with the number obtained by that task's assign). A record whose task
never assigned cannot occur in the source (record follows assign in the
same async block) and leaves the state unchanged here. -/
def mpStep (s : MpSession) : MpEvent → MpSession
  | .assign tid =>
      { state := { parts := s.state.parts, nextPartNumber := s.state.nextPartNumber + 1 },
        assigned := s.assigned ++ [(tid, s.state.nextPartNumber)] }
  | .record tid etag =>
      match s.assigned.find? (fun p => p.1 == tid) with
      | some pr =>
          { s with state := { s.state with parts := s.state.parts ++ [(pr.2, etag)] } }
      | none => s

/-- A session run from a fresh session over an interleaving of events. -/
def mpRun (events : List MpEvent) : MpSession :=
  events.foldl mpStep { state := MultipartState.init, assigned := [] }

/-- Invariant tying the assignment log to the counter and the recorded
parts: numbers are handed out as 1, 2, 3, ... in log order, the counter is
one past the log, and every recorded part number appears in the log. -/
def MpInv (s : MpSession) : Prop :=
  s.assigned.map Prod.snd = List.range' 1 s.assigned.length ∧
  s.state.nextPartNumber = s.assigned.length + 1 ∧
  ∀ p ∈ s.state.parts, p.1 ∈ s.assigned.map Prod.snd

/-- The invariant is preserved by every event, and the log grows exactly on
assignments. -/
theorem mpStep_inv (s : MpSession) (e : MpEvent) (h : MpInv s) :
    MpInv (mpStep s e) ∧
    (mpStep s e).assigned.length =
      s.assigned.length + (if e.isAssign then 1 else 0) := by
  obtain ⟨hmap, hnext, hparts⟩ := h
  cases e with
  | assign tid =>
      refine ⟨⟨?_, ?_, ?_⟩, ?_⟩
      · simp [mpStep, hmap, hnext, List.range'_concat]
        omega
      · simp [mpStep, hnext]
      · intro p hp
        have := hparts p (by simpa [mpStep] using hp)
        simp [mpStep]
        left
        simpa using this
      · simp [mpStep, MpEvent.isAssign]
  | record tid etag =>
      cases hf : s.assigned.find? (fun p => p.1 == tid) with
      | none =>
          refine ⟨⟨?_, ?_, ?_⟩, ?_⟩
          · simpa [mpStep, hf] using hmap
          · simpa [mpStep, hf] using hnext
          · intro p hp
            simp only [mpStep, hf] at hp ⊢
            exact hparts p hp
          · simp [mpStep, hf, MpEvent.isAssign]
      | some pr =>
          have hmem : pr ∈ s.assigned := List.mem_of_find?_eq_some hf
          refine ⟨⟨?_, ?_, ?_⟩, ?_⟩
          · simpa [mpStep, hf] using hmap
          · simpa [mpStep, hf] using hnext
          · intro p hp
            simp [mpStep, hf] at hp
            rcases hp with hp | hp
            · simpa [mpStep, hf] using hparts p hp
            · subst hp
              simp [mpStep, hf]
              exact ⟨pr.1, by simpa using hmem⟩
          · simp [mpStep, hf, MpEvent.isAssign]

/-- The invariant is preserved by a whole fold, with the log growing by the
number of assignment events. -/
theorem mpFoldl_inv :
    ∀ (events : List MpEvent) (s0 : MpSession), MpInv s0 →
      MpInv (events.foldl mpStep s0) ∧
      (events.foldl mpStep s0).assigned.length =
        s0.assigned.length + events.countP MpEvent.isAssign := by
  intro events
  induction events with
  | nil =>
      intro s0 h
      exact ⟨h, by simp⟩
  | cons e es ih =>
      intro s0 h
      have hstep := mpStep_inv s0 e h
      have ihs := ih (mpStep s0 e) hstep.1
      refine ⟨ihs.1, ?_⟩
      rw [List.foldl_cons, ihs.2, hstep.2, List.countP_cons]
      cases e
      · simp [MpEvent.isAssign]
        omega
      · simp [MpEvent.isAssign]

/-- The invariant holds after any run. -/
theorem mpRun_inv (events : List MpEvent) :
    MpInv (mpRun events) ∧
    (mpRun events).assigned.length = events.countP MpEvent.isAssign := by
  have base : MpInv { state := MultipartState.init, assigned := [] } := by
    refine ⟨rfl, rfl, ?_⟩
    intro p hp
    simp [MultipartState.init] at hp
  have h := mpFoldl_inv events { state := MultipartState.init, assigned := [] } base
  exact ⟨h.1, by simpa using h.2⟩

/-- C5. Over every interleaving of put_part critical sections, the N
assignment events receive, in assignment order, exactly the numbers
1, 2, ..., N: unique, gapless and strictly increasing; and every recorded
(part_number, e_tag) pair carries one of the assigned numbers. -/
theorem c5_part_number_assignment (events : List MpEvent) :
    (mpRun events).assigned.map Prod.snd =
      List.range' 1 (events.countP MpEvent.isAssign) ∧
    List.Pairwise (· < ·) ((mpRun events).assigned.map Prod.snd) ∧
    ∀ p ∈ (mpRun events).state.parts,
      p.1 ∈ (mpRun events).assigned.map Prod.snd := by
  obtain ⟨⟨hmap, _, hparts⟩, hlen⟩ := mpRun_inv events
  refine ⟨by rw [hmap, hlen], ?_, hparts⟩
  rw [hmap]
  exact List.pairwise_lt_range' 1 _

/-- Ordering used by complete(): sort_by_key on the part number. -/
def partLe (a b : Nat × String) : Bool := decide (a.1 ≤ b.1)

/-- The snapshot complete() takes under the lock: a clone of the recorded
parts, stably sorted ascending by part number (Vec::sort_by_key is a
stable sort, as is mergeSort, and stable sorting is unique, so this is the
exact list the source computes). -/
def completeSnapshot (st : MultipartState) : List (Nat × String) :=
  st.parts.mergeSort partLe

/-- CompletedPart of src/xml.rs. -/
structure CompletedPart where
  partNumber : Nat
  eTag : String
deriving Repr, DecidableEq

/-- CompleteMultipartUploadRequest::new of src/xml.rs: the pairs in order,
each one becoming one Part element of the request body. -/
def completeRequestParts (parts : List (Nat × String)) : List CompletedPart :=
  parts.map (fun p => ⟨p.1, p.2⟩)

/-- PutResult as returned by complete_multipart_upload. -/
structure PutResultM where
  eTag : Option String
  version : Option String
deriving Repr, DecidableEq

/-- AiStoreMultipartUpload::complete: under the lock it clones the parts
and sorts the clone, then (lock released) hands the request to
S3Client::complete_multipart_upload, whose outcome the server oracle
decides. Nothing is written to the session state in the source, so the
state component returned is the input state. -/
def completeSession (st : MultipartState)
    (server : List CompletedPart → Except AiStoreError PutResultM) :
    Except AiStoreError PutResultM × MultipartState :=
  (server (completeRequestParts (completeSnapshot st)), st)

/-- Mapping a request part list back to pairs undoes completeRequestParts. -/
theorem completeRequestParts_pairs (l : List (Nat × String)) :
    (completeRequestParts l).map (fun c => (c.partNumber, c.eTag)) = l := by
  induction l with
  | nil => rfl
  | cons a t ih => simp [completeRequestParts] at ih ⊢; exact ih

/-- C6. The completion request built by complete() lists the recorded parts
sorted ascending by part number; read back as pairs it is a permutation of
the recorded set, and when the recorded list has no duplicates (which part
numbering guarantees) the request itself has none either, so every
recorded part appears in the request exactly once. -/
theorem c6_complete_sorted (st : MultipartState) :
    List.Pairwise (fun a b => a.partNumber ≤ b.partNumber)
      (completeRequestParts (completeSnapshot st)) ∧
    ((completeRequestParts (completeSnapshot st)).map
      (fun c => (c.partNumber, c.eTag))).Perm st.parts ∧
    (st.parts.Nodup → (completeRequestParts (completeSnapshot st)).Nodup) := by
  have htrans : ∀ a b c : Nat × String,
      partLe a b = true → partLe b c = true → partLe a c = true := by
    intro a b c hab hbc
    simp [partLe] at *
    omega
  have htotal : ∀ a b : Nat × String, (partLe a b || partLe b a) = true := by
    intro a b
    simp [partLe]
    omega
  have hsorted := List.sorted_mergeSort htrans htotal st.parts
  have hback : (completeRequestParts (completeSnapshot st)).map
      (fun c => (c.partNumber, c.eTag)) = completeSnapshot st :=
    completeRequestParts_pairs _
  have hperm : ((completeRequestParts (completeSnapshot st)).map
      (fun c => (c.partNumber, c.eTag))).Perm st.parts := by
    rw [hback]
    exact List.mergeSort_perm st.parts partLe
  refine ⟨?_, hperm, ?_⟩
  · refine List.Pairwise.map (fun p => (⟨p.1, p.2⟩ : CompletedPart)) ?_ hsorted
    intro a b hab
    simpa [partLe] using hab
  · intro hnodup
    have hnodupMapped : ((completeRequestParts (completeSnapshot st)).map
        (fun c => (c.partNumber, c.eTag))).Nodup := hperm.nodup_iff.mpr hnodup
    exact hnodupMapped.of_map

/-- C9. complete() leaves the session state untouched: the recorded parts
and the counter after the call, whether the server answered with success
or error, are exactly those before it (the sort happens on the cloned
snapshot only). -/
theorem c9_complete_frame (st : MultipartState)
    (server : List CompletedPart → Except AiStoreError PutResultM) :
    (completeSession st server).2 = st ∧
    (completeSession st server).2.parts = st.parts ∧
    (completeSession st server).2.nextPartNumber = st.nextPartNumber :=
  ⟨rfl, rfl, rfl⟩

/-- u64::from_str as the source uses it through str::parse::<u64>: an
optional leading plus sign, then at least one decimal digit, value within
the u64 range. -/
def parseU64Chars (cs : List Char) : Option Nat :=
  let ds := if cs.head? = some '+' then cs.tail else cs
  if ds = [] then none
  else if ds.all Char.isDigit then
    let v := ds.foldl (fun acc c => acc * 10 + (c.toNat - 48)) 0
    if v < 2 ^ 64 then some v else none
  else none

/-- str::parse::<u64> on a string value. -/
def parseU64 (s : String) : Option Nat := parseU64Chars s.data

/-- str::split for a one-character pattern, on character lists: separators
are removed, empty segments are kept, and the empty string gives one empty
segment, as in Rust. -/
def splitChar (sep : Char) : List Char → List (List Char)
  | [] => [[]]
  | c :: rest =>
      let r := splitChar sep rest
      if c = sep then [] :: r
      else
        match r with
        | [] => [[c]]
        | h :: t => (c :: h) :: t

/-- S3Client::handle_error_response: the generic status-to-error mapping
applied to every non-success, non-special-cased response. -/
def handleErrorResponse (resp : HttpResponse) : AiStoreError :=
  match resp.status with
  | 404 => .notFound resp.body
  | 403 => .forbidden resp.body
  | 401 => .unauthorized resp.body
  | 409 => .alreadyExists resp.body
  | s => .http s resp.body

/-- S3Client::extract_object_meta. The Last-Modified parse
(DateTime::parse_from_rfc2822, external chrono) stays an abstract
parameter; a missing or unparseable Content-Length falls back to size 0;
the ETag is unquoted with trim_matches. The source always returns Ok. -/
def extractObjectMeta (rfc2822? : String → Option Nat) (now : Nat)
    (path : String) (resp : HttpResponse) : Except AiStoreError ObjectMeta :=
  .ok {
    location := path,
    lastModified := ((resp.headerStr "last-modified").bind rfc2822?).getD now,
    size := ((resp.headerStr "content-length").bind parseU64).getD 0,
    eTag := (resp.headerStr "etag").map (fun s => trimMatches s '"'),
    version := resp.headerStr "x-ais-version" }

/-- The string part of S3Client::parse_content_range: split on a blank into
exactly the word bytes and a ranges part, take everything before the first
slash, split that on the dash into exactly two u64 numbers, and return
start..(end + 1). -/
def parseContentRangeStr (contentRange : String) : Option (Nat × Nat) :=
  match splitChar ' ' contentRange.data with
  | [w, r] =>
    if w = "bytes".data then
      match splitChar '/' r with
      | [] => none
      | r0 :: _ =>
        match splitChar '-' r0 with
        | [a, b] =>
          match parseU64Chars a, parseU64Chars b with
          | some start, some endv => some (start, endv + 1)
          | _, _ => none
        | _ => none
    else none
  | _ => none

/-- S3Client::parse_content_range: the Content-Range header through to_str,
then the string parse. -/
def parseContentRange (resp : HttpResponse) : Option (Nat × Nat) :=
  (resp.headerStr "content-range").bind parseContentRangeStr

/-- The observable part of a successful get: metadata and served range
(the lazily consumed byte stream itself is elided). -/
structure GetResultM where
  meta : ObjectMeta
  range : Nat × Nat
deriving Repr, DecidableEq

/-- The response-interpretation tail of S3Client::get_object, in source
order: the 304 check, the 412 check, the generic error translation for any
other non-success status, then metadata extraction and the served range,
Content-Range if parseable, else 0..size. -/
def getObjectFromResponse (rfc2822? : String → Option Nat) (now : Nat)
    (path : String) (resp : HttpResponse) : Except AiStoreError GetResultM :=
  if resp.status = 304 then .error (.notModified path)
  else if resp.status = 412 then .error (.preconditionFailed path)
  else if !(isSuccess resp.status) then .error (handleErrorResponse resp)
  else
    match extractObjectMeta rfc2822? now path resp with
    | .error e => .error e
    | .ok meta => .ok { meta := meta, range := (parseContentRange resp).getD (0, meta.size) }

/-- S3Client::get_object end to end after the request is built: send with
the default policy semantics over the outcome oracle, an early return on a
send error, then the response interpretation. -/
def getObjectSend (pol : RequestPolicy) (rfc2822? : String → Option Nat) (now : Nat)
    (path : String) (outcomes : List SendOutcome) :
    Option (Except AiStoreError GetResultM × Nat) :=
  (send pol outcomes).map (fun p =>
    (match p.1 with
     | .error e => .error e
     | .ok resp => getObjectFromResponse rfc2822? now path resp, p.2))

/-- Served range of a get result, when it succeeded. -/
def resultRange : Except AiStoreError GetResultM → Option (Nat × Nat)
  | .ok r => some r.range
  | .error _ => none

/-- C7. On a successful response: a missing Content-Range header, or one
that does not parse as bytes start-end/..., falls back to the served range
0..size with size the u64 read from Content-Length (0 when that is missing
or unparseable); a well-formed bytes start-end/... header yields the
served range start..(end + 1). -/
theorem c7_served_range (rfc2822? : String → Option Nat) (now : Nat) (path : String)
    (resp : HttpResponse) (hs : isSuccess resp.status = true) :
    (resp.headerStr "content-range" = none →
      resultRange (getObjectFromResponse rfc2822? now path resp) =
        some (0, ((resp.headerStr "content-length").bind parseU64).getD 0)) ∧
    (∀ cr, resp.headerStr "content-range" = some cr →
      parseContentRangeStr cr = none →
      resultRange (getObjectFromResponse rfc2822? now path resp) =
        some (0, ((resp.headerStr "content-length").bind parseU64).getD 0)) ∧
    (∀ cr r1 r0 rs a b start endv,
      resp.headerStr "content-range" = some cr →
      splitChar ' ' cr.data = ["bytes".data, r1] →
      splitChar '/' r1 = r0 :: rs →
      splitChar '-' r0 = [a, b] →
      parseU64Chars a = some start → parseU64Chars b = some endv →
      resultRange (getObjectFromResponse rfc2822? now path resp) =
        some (start, endv + 1)) := by
  have hstat : resp.status ≠ 304 ∧ resp.status ≠ 412 := by
    simp [isSuccess] at hs
    omega
  refine ⟨?_, ?_, ?_⟩
  · intro hnone
    simp [getObjectFromResponse, hstat.1, hstat.2, hs, extractObjectMeta,
      parseContentRange, hnone, resultRange]
  · intro cr hcr hparse
    simp [getObjectFromResponse, hstat.1, hstat.2, hs, extractObjectMeta,
      parseContentRange, hcr, hparse, resultRange]
  · intro cr r1 r0 rs a b start endv hcr hsp1 hsp2 hsp3 ha hb
    have hparse : parseContentRangeStr cr = some (start, endv + 1) := by
      simp [parseContentRangeStr, hsp1, hsp2, hsp3, ha, hb]
    simp [getObjectFromResponse, hstat.1, hstat.2, hs, extractObjectMeta,
      parseContentRange, hcr, hparse, resultRange]

/-- Plain 200 with only a Content-Length of 42, for the C7 witness. -/
def respLen42 : HttpResponse :=
  { status := 200, headers := [("content-length", ⟨some "42"⟩)], body := "" }

/-- Partial-content 206 with Content-Range bytes 10-19/100, for the C7
witness. -/
def resp206 : HttpResponse :=
  { status := 206,
    headers := [("content-range", ⟨some "bytes 10-19/100"⟩),
      ("content-length", ⟨some "10"⟩)],
    body := "" }

/-- C7 witness: without Content-Range the served range is 0..42 from
Content-Length; with Content-Range bytes 10-19/100 it is 10..20. -/
theorem c7_served_range_witness :
    resultRange (getObjectFromResponse (fun _ => none) 0 "p" respLen42) = some (0, 42) ∧
    resultRange (getObjectFromResponse (fun _ => none) 0 "p" resp206) = some (10, 20) := by
  constructor
  · have h := (c7_served_range (fun _ => none) 0 "p" respLen42 (by decide)).1 (by decide)
    simpa using h
  · have h := (c7_served_range (fun _ => none) 0 "p" resp206 (by decide)).2.2
      "bytes 10-19/100" "10-19/100".data "10-19".data ["100".data] "10".data "19".data 10 19
      (by decide) (by decide) (by decide) (by decide) (by decide) (by decide)
    simpa using h

/-- A bare 304 response: no Location header, as a real Not-Modified reply. -/
def resp304 : HttpResponse := { status := 304, headers := [], body := "" }

/-- A bare 412 response. -/
def resp412 : HttpResponse := { status := 412, headers := [], body := "" }

/-- C8 (code bug evidence). The composed get path never delivers a 304 to
the client branch that would return NotModified: send classifies 304 as a
redirection (StatusCode::is_redirection covers 300..399), finds no
Location header and returns the InvalidResponse redirect error instead, so
the caller of a conditional get sees InvalidResponse, not NotModified.
The second conjunct shows the client branch itself would map a 304 to
NotModified if it were ever reached; the third shows the 412 half of the
claim does hold end to end. -/
theorem c8_not_modified_unreachable :
    getObjectSend RequestPolicy.default (fun _ => none) 0 "obj" [Except.ok resp304] =
      some (.error (.invalidResponse "304 redirect without Location header"), 1) ∧
    getObjectFromResponse (fun _ => none) 0 "obj" resp304 =
      .error (.notModified "obj") ∧
    getObjectSend RequestPolicy.default (fun _ => none) 0 "obj" [Except.ok resp412] =
      some (.error (.preconditionFailed "obj"), 1) :=
  ⟨rfl, rfl, rfl⟩

/-- C10. Whenever the Content-Length header is absent, fails to_str (not
visible ASCII), or does not parse as a u64, extract_object_meta still
returns Ok and reports size 0. -/
theorem c10_size_fallback (rfc2822? : String → Option Nat) (now : Nat) (path : String)
    (resp : HttpResponse)
    (h : resp.getHeader "content-length" = none ∨
      (∃ v, resp.getHeader "content-length" = some v ∧ v.toStr? = none) ∨
      (∃ s, resp.headerStr "content-length" = some s ∧ parseU64 s = none)) :
    ∃ meta, extractObjectMeta rfc2822? now path resp = .ok meta ∧ meta.size = 0 := by
  refine ⟨_, rfl, ?_⟩
  rcases h with h | ⟨v, hv, hvs⟩ | ⟨s, hcl, hps⟩
  · simp [extractObjectMeta, HttpResponse.headerStr, h]
  · simp [extractObjectMeta, HttpResponse.headerStr, hv, hvs]
  · simp [extractObjectMeta, hcl, hps]

/-- Response without Content-Length. -/
def respNoCL : HttpResponse := { status := 200, headers := [], body := "" }

/-- Response whose Content-Length value fails to_str. -/
def respBadCL : HttpResponse :=
  { status := 200, headers := [("content-length", ⟨none⟩)], body := "" }

/-- Response whose Content-Length is not a number. -/
def respNonNumCL : HttpResponse :=
  { status := 200, headers := [("content-length", ⟨some "abc"⟩)], body := "" }

/-- C10 witness: all three failure shapes still extract metadata with
size 0. -/
theorem c10_size_fallback_witness :
    (∃ meta, extractObjectMeta (fun _ => none) 5 "p" respNoCL = .ok meta ∧ meta.size = 0) ∧
    (∃ meta, extractObjectMeta (fun _ => none) 5 "p" respBadCL = .ok meta ∧ meta.size = 0) ∧
    (∃ meta, extractObjectMeta (fun _ => none) 5 "p" respNonNumCL = .ok meta ∧ meta.size = 0) := by
  refine ⟨?_, ?_, ?_⟩
  · exact c10_size_fallback (fun _ => none) 5 "p" respNoCL (Or.inl (by decide))
  · exact c10_size_fallback (fun _ => none) 5 "p" respBadCL
      (Or.inr (Or.inl ⟨⟨none⟩, by decide, rfl⟩))
  · exact c10_size_fallback (fun _ => none) 5 "p" respNonNumCL
      (Or.inr (Or.inr ⟨"abc", by decide, by decide⟩))

end AIS
